import Mathlib

/-!
Shallow embedding of `org_fedora_oscap/rule_handling.py` (oscap-anaconda-addon):
the directive parsers built on `optparse`, the rule data model
(`RuleData`, `PartRules`/`PartRule`, `PasswdRules`, `PackageRules`,
`BootloaderRules`) and the evaluation engine (`eval_rules`), together with
proofs about the parsing, merging and evaluation behaviour.

Python strings are modelled as Lean `String`; all string primitives used by
the code (`str.strip`, `str.split`, `shlex.split` on unquoted input,
`","`-splitting and joining) are defined below by recursion on the underlying
character list so that they compute by kernel reduction.

The mutable system state the code reads and writes (`storage.mountpoints`
with each mount point's `format.options` string, and
`ksdata.packages.packageList` / `ksdata.packages.excludedList`) is modelled
as an explicit state record threaded through `eval_rules`; the Python
methods' in-place mutations become the returned state.
-/

namespace OscapAddon

/-! ### Python string primitives -/

/-- The characters Python `str.strip()` / `str.split()` treat as whitespace. -/
def isPySpace (c : Char) : Bool :=
  c = ' ' || c = '\t' || c = '\n' || c = '\x0d' || c = '\x0b' || c = '\x0c'

/-- Python `s.strip()`: drop leading and trailing whitespace. -/
def pyStrip (s : String) : String :=
  String.mk (((s.data.dropWhile isPySpace).reverse.dropWhile isPySpace).reverse)

/-- Auxiliary scanner for whitespace-separated words. -/
def pyWordsCore : List Char → List Char → List String
  | [], cur => if cur = [] then [] else [String.mk cur.reverse]
  | c :: cs, cur =>
    if isPySpace c then
      if cur = [] then pyWordsCore cs [] else String.mk cur.reverse :: pyWordsCore cs []
    else
      pyWordsCore cs (c :: cur)

/-- Python `s.split()` (no separator): the non-empty whitespace-separated
words of `s`.  This also models `shlex.split(s)` for the unquoted directive
lines that occur in this module (quoting/escaping, which `shlex` would
additionally honour, is not exercised by any rule line considered here). -/
def pyWords (s : String) : List String := pyWordsCore s.data []

/-- The first whitespace-delimited word, `rule.split(None, 1)[0]`, of an
already stripped, non-empty string. -/
def firstWord (s : String) : String :=
  String.mk (s.data.takeWhile (fun c => ¬ isPySpace c))

/-- Auxiliary scanner for `str.split(",")`. -/
def splitCommaCore : List Char → List Char → List String
  | [], cur => [String.mk cur.reverse]
  | c :: cs, cur =>
    if c = ',' then String.mk cur.reverse :: splitCommaCore cs []
    else splitCommaCore cs (c :: cur)

/-- Python `s.split(",")`: split at every comma, keeping empty pieces
(`"".split(",") == [""]`). -/
def splitComma (s : String) : List String := splitCommaCore s.data []

/-- The body of `parse_csv` (the `--mountoptions` callback): split the value
on commas and keep only the non-empty items (`if item:`). -/
def csvItems (v : String) : List String :=
  (splitComma v).filter (fun item => item ≠ "")

/-- Digit-string to number, `none` when empty or not all digits. -/
def parseDigits (cs : List Char) : Option Nat :=
  if cs = [] then none
  else if cs.all Char.isDigit then
    some (cs.foldl (fun n c => n * 10 + (c.toNat - 48)) 0)
  else none

/-- Python `int(s)` as `optparse` uses it for `type="int"` options: an
optional sign followed by decimal digits; `none` models `ValueError`. -/
def parseIntPy (s : String) : Option Int :=
  match s.data with
  | '-' :: rest => (parseDigits rest).map (fun n => -(n : Int))
  | '+' :: rest => (parseDigits rest).map (fun n => (n : Int))
  | cs => (parseDigits cs).map (fun n => (n : Int))

/-- `s` begins with `pre` (Python `str.startswith`). -/
def pyStartsWith (pre s : String) : Bool := pre.data.isPrefixOf s.data

/-- Drop the first `n` characters (used to strip a `--flag=` from a token). -/
def strDrop (s : String) (n : Nat) : String := String.mk (s.data.drop n)

/-! ### Messages

Modelled from the spec: `common.RuleMessage` and the `MESSAGE_TYPE_*`
constants live in `org_fedora_oscap/common.py`, which is not part of the
sources given here; the spec defines a Message as a severity in
{Info, Warning, Fatal} plus a text, immutable once created. -/

/-- Modelled from the spec: message severity, one of Info, Warning, Fatal
(the `common.MESSAGE_TYPE_*` constants). -/
inductive MessageType where
  | info
  | warning
  | fatal
deriving DecidableEq, Repr

/-- Modelled from the spec: `common.RuleMessage`, a severity plus a
human-readable text. -/
structure RuleMessage where
  type : MessageType
  text : String
deriving DecidableEq, Repr

/-! ### System state (the external collaborators' interface)

`storage.mountpoints` is a dict from mount-point path to a device whose
`format.options` is a mutable comma-separated option string: the code only
ever looks a mount point up (`in`, `[...]`) and reads/extends that option
string, so the whole storage side is modelled as a partial map from mount
point to option string.  `ksdata.packages` carries the two mutable lists
`packageList` and `excludedList`. -/

/-- The storage side of the system state: for each planned mount point, its
format's option string (`storage.mountpoints[mp].format.options`). -/
structure Storage where
  mountpoints : String → Option String

/-- The package side of the kickstart data: `ksdata.packages.packageList`
and `ksdata.packages.excludedList`. -/
structure Packages where
  packageList : List String
  excludedList : List String

/-- `ksdata`, restricted to the parts the module touches. -/
structure KSData where
  packages : Packages

/-- The whole external system state `eval_rules` reads and conditionally
mutates. -/
structure SysState where
  ksdata : KSData
  storage : Storage

/-- `mp in storage.mountpoints` / `storage.mountpoints[mp]` combined:
the option string of mount point `mp`, `none` when `mp` is not planned. -/
def lookupMP (storage : Storage) (mp : String) : Option String :=
  storage.mountpoints mp

/-- In-place mutation `storage.mountpoints[mp].format.options = v`, as a
functional update. -/
def setMPOptions (storage : Storage) (mp : String) (v : String) : Storage :=
  ⟨fun mp2 => if mp2 = mp then some v else storage.mountpoints mp2⟩

/-! ### The rule data model -/

/-- `PartRule`: rule data for a single mount point. -/
structure PartRule where
  mount_point : String
  mount_options : List String
deriving DecidableEq, Repr

/-- `PartRule.__init__(mount_point)`. -/
def PartRule.init (mount_point : String) : PartRule := ⟨mount_point, []⟩

/-- `PartRule.__str__`. -/
def PartRule.str (r : PartRule) : String :=
  "part " ++ r.mount_point ++
    (if r.mount_options ≠ [] then
       " --mountoptions=" ++ String.intercalate "," r.mount_options
     else "")

/-- `PartRule.add_mount_options(mount_options)`:
`self._mount_options.extend(opt for opt in mount_options if opt not in
self._mount_options)`.  `list.extend` consumes the generator lazily,
appending each produced option before the next membership test runs, so the
`opt not in self._mount_options` check sees the options appended earlier in
the same call; the fold below reproduces exactly that. -/
def PartRule.add_mount_options (r : PartRule) (mount_options : List String) : PartRule :=
  { r with
    mount_options :=
      mount_options.foldl
        (fun acc opt => if opt ∈ acc then acc else acc ++ [opt])
        r.mount_options }

/-- `PartRules`: the per-mount-point rules.  The Python dict (unique keys,
some fixed iteration order) is modelled as a list in insertion order. -/
structure PartRules where
  rules : List PartRule
deriving DecidableEq, Repr

/-- `PartRules.__init__`. -/
def PartRules.init : PartRules := ⟨[]⟩

/-- `PartRules.__str__`: newline-joined `str` of the stored rules. -/
def PartRules.str (prs : PartRules) : String :=
  String.intercalate "\n" (prs.rules.map PartRule.str)

/-- `mount_point in self._rules` (`PartRules.__contains__`). -/
def PartRules.hasMP (prs : PartRules) (mp : String) : Bool :=
  prs.rules.any (fun r => r.mount_point = mp)

/-- `PartRules.ensure_mount_point(mount_point)`. -/
def PartRules.ensure_mount_point (prs : PartRules) (mp : String) : PartRules :=
  if prs.hasMP mp then prs else ⟨prs.rules ++ [PartRule.init mp]⟩

/-- `self._rules[mount_point].add_mount_options(...)` and similar in-place
updates of the rule stored under key `mp`. -/
def PartRules.modifyRule (prs : PartRules) (mp : String) (f : PartRule → PartRule) : PartRules :=
  ⟨prs.rules.map (fun r => if r.mount_point = mp then f r else r)⟩

/-- `PasswdRules`: the password-policy data.  `optparse`'s `type="int"`
can produce negative values, so `minlen` is an integer. -/
structure PasswdRules where
  minlen : Int
deriving DecidableEq, Repr

/-- `PasswdRules.__init__`. -/
def PasswdRules.init : PasswdRules := ⟨0⟩

/-- `PasswdRules.__str__`. -/
def PasswdRules.str (p : PasswdRules) : String :=
  if p.minlen > 0 then "passwd --minlen=" ++ toString p.minlen else ""

/-- `PasswdRules.update_minlen(minlen)`. -/
def PasswdRules.update_minlen (p : PasswdRules) (minlen : Int) : PasswdRules :=
  if minlen > p.minlen then ⟨minlen⟩ else p

/-- `PackageRules`: packages to add / to remove.  The Python `set`s (no
duplicates, unspecified but fixed iteration order) are modelled as
duplicate-free lists in first-insertion order. -/
structure PackageRules where
  add_pkgs : List String
  remove_pkgs : List String
deriving DecidableEq, Repr

/-- `PackageRules.__init__`. -/
def PackageRules.init : PackageRules := ⟨[], []⟩

/-- `set.update`: add the elements not already present. -/
def setUpdate (s : List String) (new : List String) : List String :=
  new.foldl (fun acc p => if p ∈ acc then acc else acc ++ [p]) s

/-- `PackageRules.add_packages(packages)`; the empty list also stands for
Python `None` (both are falsy, hence no-ops). -/
def PackageRules.add_packages (pr : PackageRules) (packages : List String) : PackageRules :=
  if packages ≠ [] then { pr with add_pkgs := setUpdate pr.add_pkgs packages } else pr

/-- `PackageRules.remove_packages(packages)`. -/
def PackageRules.remove_packages (pr : PackageRules) (packages : List String) : PackageRules :=
  if packages ≠ [] then { pr with remove_pkgs := setUpdate pr.remove_pkgs packages } else pr

/-- `PackageRules.__str__`: note the keyword rendered is `"packages"`. -/
def PackageRules.str (pr : PackageRules) : String :=
  let ret := "packages"
  let adds := String.intercalate " " (pr.add_pkgs.map (fun p => "--add=" ++ p))
  let ret := if adds ≠ "" then ret ++ " " ++ adds else ret
  let rems := String.intercalate " " (pr.remove_pkgs.map (fun p => "--remove=" ++ p))
  let ret := if rems ≠ "" then ret ++ " " ++ rems else ret
  ret

/-- `BootloaderRules`: bootloader-password requirement. -/
structure BootloaderRules where
  require_password : Bool
deriving DecidableEq, Repr

/-- `BootloaderRules.__init__`. -/
def BootloaderRules.init : BootloaderRules := ⟨false⟩

/-- `BootloaderRules.require_password()`. -/
def BootloaderRules.requirePassword (b : BootloaderRules) : BootloaderRules :=
  { b with require_password := true }

/-- `BootloaderRules.__str__`. -/
def BootloaderRules.str (b : BootloaderRules) : String :=
  if b.require_password then "bootloader --passwd" else "bootloader"

/-- `RuleData`: the aggregate of the four rule collections. -/
structure RuleData where
  part_rules : PartRules
  passwd_rules : PasswdRules
  package_rules : PackageRules
  bootloader_rules : BootloaderRules
deriving DecidableEq, Repr

/-- `RuleData.__init__`. -/
def RuleData.init : RuleData :=
  ⟨PartRules.init, PasswdRules.init, PackageRules.init, BootloaderRules.init⟩

/-- `RuleData.__str__`: the part-rule lines, then the passwd line when
non-empty, then the package line when non-empty (the bootloader rules are
not rendered at all). -/
def RuleData.str (rd : RuleData) : String :=
  let ret := rd.part_rules.str
  let ret := if rd.passwd_rules.str ≠ "" then ret ++ "\n" ++ rd.passwd_rules.str else ret
  let ret := if rd.package_rules.str ≠ "" then ret ++ "\n" ++ rd.package_rules.str else ret
  ret

/-! ### The directive parsers

The four `optparse.OptionParser` instances, as functions from a token list
to the parsed options plus the leftover positional arguments.  `optparse`
reports a grammar violation (unknown flag, missing or ill-typed value) by
printing a usage message and calling `sys.exit(2)`, i.e. raising
`SystemExit`; out-of-range indexing raises `IndexError`; both are modelled
as error values, as is the module's own `UknownRuleError` (the class name's
spelling is the source's).  `optparse`'s unambiguous-abbreviation matching
of long flags (e.g. `--mount` for `--mountoptions`) is not modelled: all
flags here are written out in full. -/

/-- The failure modes of `RuleData.new_rule` and the option parsers. -/
inductive PyErr where
  | systemExit (msg : String)
  | indexError
  | uknownRuleError (msg : String)
deriving DecidableEq, Repr

/-- `PART_RULE_PARSER.parse_args(args)`: one option `--mountoptions` with a
`parse_csv` callback accumulating the non-empty comma-separated items;
everything else positional.  Returns `(opts.mount_options, args)` (the empty
list standing for Python `None`, both falsy). -/
def partParseArgs : List String → List String → List String →
    Except PyErr (List String × List String)
  | [], mount_options, pos => Except.ok (mount_options, pos)
  | tok :: rest, mount_options, pos =>
    if tok = "--" then Except.ok (mount_options, pos ++ rest)
    else if tok = "--mountoptions" then
      match rest with
      | [] => Except.error (PyErr.systemExit "--mountoptions option requires an argument")
      | v :: rest2 => partParseArgs rest2 (mount_options ++ csvItems v) pos
    else if pyStartsWith "--mountoptions=" tok then
      partParseArgs rest (mount_options ++ csvItems (strDrop tok 15)) pos
    else if pyStartsWith "-" tok && tok ≠ "-" then
      Except.error (PyErr.systemExit ("no such option: " ++ tok))
    else partParseArgs rest mount_options (pos ++ [tok])

/-- `PASSWD_RULE_PARSER.parse_args(args)`: one option `--minlen`,
`action="store"`, `type="int"`, `default=0`. -/
def passwdParseArgs : List String → Int → List String →
    Except PyErr (Int × List String)
  | [], minlen, pos => Except.ok (minlen, pos)
  | tok :: rest, minlen, pos =>
    if tok = "--" then Except.ok (minlen, pos ++ rest)
    else if tok = "--minlen" then
      match rest with
      | [] => Except.error (PyErr.systemExit "--minlen option requires an argument")
      | v :: rest2 =>
        match parseIntPy v with
        | none => Except.error (PyErr.systemExit ("option --minlen: invalid integer value: " ++ v))
        | some n => passwdParseArgs rest2 n pos
    else if pyStartsWith "--minlen=" tok then
      let v := strDrop tok 9
      match parseIntPy v with
      | none => Except.error (PyErr.systemExit ("option --minlen: invalid integer value: " ++ v))
      | some n => passwdParseArgs rest n pos
    else if pyStartsWith "-" tok && tok ≠ "-" then
      Except.error (PyErr.systemExit ("no such option: " ++ tok))
    else passwdParseArgs rest minlen (pos ++ [tok])

/-- `PACKAGE_RULE_PARSER.parse_args(args)`: repeatable `--add` and
`--remove`, `action="append"`, in occurrence order. -/
def packageParseArgs : List String → List String → List String → List String →
    Except PyErr (List String × List String × List String)
  | [], adds, rems, pos => Except.ok (adds, rems, pos)
  | tok :: rest, adds, rems, pos =>
    if tok = "--" then Except.ok (adds, rems, pos ++ rest)
    else if tok = "--add" then
      match rest with
      | [] => Except.error (PyErr.systemExit "--add option requires an argument")
      | v :: rest2 => packageParseArgs rest2 (adds ++ [v]) rems pos
    else if pyStartsWith "--add=" tok then
      packageParseArgs rest (adds ++ [strDrop tok 6]) rems pos
    else if tok = "--remove" then
      match rest with
      | [] => Except.error (PyErr.systemExit "--remove option requires an argument")
      | v :: rest2 => packageParseArgs rest2 adds (rems ++ [v]) pos
    else if pyStartsWith "--remove=" tok then
      packageParseArgs rest adds (rems ++ [strDrop tok 9]) pos
    else if pyStartsWith "-" tok && tok ≠ "-" then
      Except.error (PyErr.systemExit ("no such option: " ++ tok))
    else packageParseArgs rest adds rems (pos ++ [tok])

/-- `BOOTLOADER_RULE_PARSER.parse_args(args)`: one boolean flag `--passwd`,
`action="store_true"`, `default=False`. -/
def bootloaderParseArgs : List String → Bool → List String →
    Except PyErr (Bool × List String)
  | [], passwd, pos => Except.ok (passwd, pos)
  | tok :: rest, passwd, pos =>
    if tok = "--" then Except.ok (passwd, pos ++ rest)
    else if tok = "--passwd" then bootloaderParseArgs rest true pos
    else if pyStartsWith "--passwd=" tok then
      Except.error (PyErr.systemExit "--passwd option does not take a value")
    else if pyStartsWith "-" tok && tok ≠ "-" then
      Except.error (PyErr.systemExit ("no such option: " ++ tok))
    else bootloaderParseArgs rest passwd (pos ++ [tok])

/-! ### `RuleData.new_rule` and its per-keyword handlers -/

/-- `RuleData._new_part_rule(rule)`: tokenize, parse with
`PART_RULE_PARSER`, take `args[1]` as the mount point (`args[0]` is the
keyword `part` itself; a missing mount point is an `IndexError`), ensure
the mount point's rule exists and, when options were given, merge them. -/
def RuleData._new_part_rule (rd : RuleData) (rule : String) : Except PyErr RuleData := do
  let args := pyWords rule
  let (mount_options, pos) ← partParseArgs args [] []
  match pos.get? 1 with
  | none => Except.error PyErr.indexError
  | some mount_point =>
    let part_rules := rd.part_rules.ensure_mount_point mount_point
    let part_rules :=
      if mount_options ≠ [] then
        part_rules.modifyRule mount_point (fun r => r.add_mount_options mount_options)
      else part_rules
    Except.ok { rd with part_rules := part_rules }

/-- `RuleData._new_passwd_rule(rule)`. -/
def RuleData._new_passwd_rule (rd : RuleData) (rule : String) : Except PyErr RuleData := do
  let args := pyWords rule
  let (minlen, _pos) ← passwdParseArgs args 0 []
  Except.ok { rd with passwd_rules := rd.passwd_rules.update_minlen minlen }

/-- `RuleData._new_package_rule(rule)`. -/
def RuleData._new_package_rule (rd : RuleData) (rule : String) : Except PyErr RuleData := do
  let args := pyWords rule
  let (adds, rems, _pos) ← packageParseArgs args [] [] []
  let package_rules := rd.package_rules.add_packages adds
  let package_rules := package_rules.remove_packages rems
  Except.ok { rd with package_rules := package_rules }

/-- `RuleData._new_bootloader_rule(rule)`. -/
def RuleData._new_bootloader_rule (rd : RuleData) (rule : String) : Except PyErr RuleData := do
  let args := pyWords rule
  let (passwd, _pos) ← bootloaderParseArgs args false []
  Except.ok
    { rd with
      bootloader_rules :=
        if passwd then rd.bootloader_rules.requirePassword else rd.bootloader_rules }

/-- `RuleData.new_rule(rule)`: strip the line; an empty result is a no-op;
dispatch on the first word; an unknown keyword raises `UknownRuleError`. -/
def RuleData.new_rule (rd : RuleData) (rule : String) : Except PyErr RuleData :=
  let rule := pyStrip rule
  if rule = "" then Except.ok rd
  else
    let first_word := firstWord rule
    if first_word = "part" then rd._new_part_rule rule
    else if first_word = "passwd" then rd._new_passwd_rule rule
    else if first_word = "package" then rd._new_package_rule rule
    else if first_word = "bootloader" then rd._new_bootloader_rule rule
    else Except.error (PyErr.uknownRuleError ("Unknown rule: '" ++ first_word ++ "'"))

/-! ### Evaluation

Each `eval_rules` is a state transformer: it returns the (possibly) updated
system state together with the produced message list.  None of the Python
`eval_rules` methods writes to `self`, so the rule data is an input only. -/

/-- `PartRule.eval_rules(ksdata, storage, report_only)`. -/
def PartRule.eval_rules (r : PartRule) (st : SysState) (report_only : Bool) :
    SysState × List RuleMessage :=
  match lookupMP st.storage r.mount_point with
  | none =>
    -- mount point doesn't exist, nothing more can be found here
    (st, [⟨MessageType.fatal,
           r.mount_point ++ " must be on a separate partition or logical volume"⟩])
  | some options =>
    -- new options that should be added
    let new_opts := r.mount_options.filter (fun opt => opt ∉ splitComma options)
    -- the loop builds ",%s"-concatenation and one info message per option
    let new_opts_str := new_opts.foldl (fun s opt => s ++ "," ++ opt) ""
    let messages := new_opts.map (fun opt =>
      (⟨MessageType.info,
        "mount option '" ++ opt ++ "' added for the mount point " ++ r.mount_point⟩ :
        RuleMessage))
    -- add new options to the target mount point
    (if report_only then st
     else { st with storage := setMPOptions st.storage r.mount_point (options ++ new_opts_str) },
     messages)

/-- `PartRules.eval_rules`: evaluate each stored rule in order,
concatenating messages (the state updates thread through). -/
def PartRules.eval_rules (prs : PartRules) (st : SysState) (report_only : Bool) :
    SysState × List RuleMessage :=
  prs.rules.foldl
    (fun acc r =>
      let (st2, msgs) := r.eval_rules acc.1 report_only
      (st2, acc.2 ++ msgs))
    (st, [])

/-- `PasswdRules.eval_rules(*args)`: advisory only, never touches state. -/
def PasswdRules.eval_rules (p : PasswdRules) (st : SysState) (_report_only : Bool) :
    SysState × List RuleMessage :=
  if p.minlen > 0 then
    (st, [⟨MessageType.warning,
           "make sure to create password with minimal length of " ++
             toString p.minlen ++ " characters"⟩])
  else
    (st, [])

/-- One of `PackageRules.eval_rules`' two loops: for each package, append it
to the list unless `report_only` or already present, and emit the info
message unconditionally. -/
def pkgLoop (report_only : Bool) (mkText : String → String)
    (pkgs : List String) (lst : List String) : List String × List RuleMessage :=
  pkgs.foldl
    (fun acc pkg =>
      ((if !report_only && pkg ∉ acc.1 then acc.1 ++ [pkg] else acc.1),
       acc.2 ++ [⟨MessageType.info, mkText pkg⟩]))
    (lst, [])

/-- `PackageRules.eval_rules(ksdata, storage, report_only)`. -/
def PackageRules.eval_rules (pr : PackageRules) (st : SysState) (report_only : Bool) :
    SysState × List RuleMessage :=
  let add := pkgLoop report_only
    (fun pkg => "package '" ++ pkg ++ "' has been added to the list of to be installed packages")
    pr.add_pkgs st.ksdata.packages.packageList
  let rem := pkgLoop report_only
    (fun pkg => "package '" ++ pkg ++ "' has been added to the list of excluded packages")
    pr.remove_pkgs st.ksdata.packages.excludedList
  ({ st with ksdata := ⟨⟨add.1, rem.1⟩⟩ }, add.2 ++ rem.2)

/-- `BootloaderRules.eval_rules`: inherited from `RuleHandler`, returns no
messages and changes nothing. -/
def BootloaderRules.eval_rules (_b : BootloaderRules) (st : SysState) (_report_only : Bool) :
    SysState × List RuleMessage :=
  (st, [])

/-- `RuleData.eval_rules(ksdata, storage, report_only)`: fan out to the four
collections in the fixed order, concatenating messages. -/
def RuleData.eval_rules (rd : RuleData) (st : SysState) (report_only : Bool) :
    SysState × List RuleMessage :=
  let p1 := rd.part_rules.eval_rules st report_only
  let p2 := rd.passwd_rules.eval_rules p1.1 report_only
  let p3 := rd.package_rules.eval_rules p2.1 report_only
  let p4 := rd.bootloader_rules.eval_rules p3.1 report_only
  (p4.1, p1.2 ++ p2.2 ++ p3.2 ++ p4.2)

/-! ### Derived definitions used by the statements and proofs -/

/-- A concrete system state: `/tmp` planned with current mount options
`"defaults"`, empty package lists. -/
def exState : SysState :=
  ⟨⟨⟨[], []⟩⟩, ⟨fun mp => if mp = "/tmp" then some "defaults" else none⟩⟩

/-- A concrete system state: `/tmp` planned with an empty option string. -/
def exStateEmptyOpts : SysState :=
  ⟨⟨⟨[], []⟩⟩, ⟨fun mp => if mp = "/tmp" then some "" else none⟩⟩

/-- A concrete system state with no planned mount points and empty package
lists. -/
def exStateNoMounts : SysState :=
  ⟨⟨⟨[], []⟩⟩, ⟨fun _ => none⟩⟩

/-- Each element of `l` at the position of its first occurrence, in order:
the duplicate-free sequence that `add_mount_options` is claimed to keep. -/
def firstSeen (l : List String) : List String :=
  l.foldl (fun acc o => if o ∈ acc then acc else acc ++ [o]) []

/-- All of the rule's mount options are already present in the option list
of its (planned) mount point: the state the apply mode establishes. -/
def covered (r : PartRule) (storage : Storage) : Prop :=
  ∀ options, lookupMP storage r.mount_point = some options →
    ∀ o ∈ r.mount_options, o ∈ splitComma options

/-- Monotone growth of the storage state: no planned mount point appears or
disappears, and each mount point's option list only gains entries. -/
def optsGrow (s₁ s₂ : Storage) : Prop :=
  ∀ mp, (s₁.mountpoints mp = none → s₂.mountpoints mp = none) ∧
    ∀ opts, s₁.mountpoints mp = some opts →
      ∃ opts2, s₂.mountpoints mp = some opts2 ∧
        ∀ o ∈ splitComma opts, o ∈ splitComma opts2

/-- The state after `PartRules.eval_rules` threads the per-rule evaluations. -/
def partStates (report_only : Bool) (st : SysState) (rules : List PartRule) : SysState :=
  rules.foldl (fun s r => (r.eval_rules s report_only).1) st

/-- The messages `PartRules.eval_rules` concatenates, each rule evaluated in
the state left by its predecessors. -/
def partMsgs (report_only : Bool) : SysState → List PartRule → List RuleMessage
  | _, [] => []
  | st, r :: rest =>
    (r.eval_rules st report_only).2 ++ partMsgs report_only (r.eval_rules st report_only).1 rest

/-- The list-growing half of one `pkgLoop` pass: append each package not yet
present, unless in report-only mode. -/
def pkgFold (report_only : Bool) (pkgs lst : List String) : List String :=
  pkgs.foldl (fun l p => if !report_only && p ∉ l then l ++ [p] else l) lst

/-- A concrete rule set: `part /tmp --mountoptions=nodev` plus
`package --add=vim`. -/
def rdEx : RuleData := ⟨⟨[⟨"/tmp", ["nodev"]⟩]⟩, ⟨0⟩, ⟨["vim"], []⟩, ⟨false⟩⟩

/-! ### Helper lemmas about the string primitives -/

/-- The `",%s"`-concatenation that the `new_opts_str` loop of
`PartRule.eval_rules` accumulates: each option prefixed by one comma. -/
def commaConcat : List String → String
  | [] => ""
  | o :: rest => "," ++ o ++ commaConcat rest

theorem foldl_comma (l : List String) (s : String) :
    l.foldl (fun acc o => acc ++ "," ++ o) s = s ++ commaConcat l := by
  induction l generalizing s with
  | nil => simp [commaConcat]
  | cons o rest ih =>
    rw [List.foldl_cons, ih, commaConcat]
    simp [String.append_assoc]

theorem splitCommaCore_append (l₁ l₂ : List Char) (acc : List Char) :
    splitCommaCore (l₁ ++ ',' :: l₂) acc = splitCommaCore l₁ acc ++ splitCommaCore l₂ [] := by
  induction l₁ generalizing acc with
  | nil => simp [splitCommaCore]
  | cons c cs ih =>
    by_cases h : c = ',' <;> simp [splitCommaCore, h, ih]

theorem splitCommaCore_no_comma (l : List Char) (acc : List Char) (h : ',' ∉ l) :
    splitCommaCore l acc = [String.mk (acc.reverse ++ l)] := by
  induction l generalizing acc with
  | nil => simp [splitCommaCore]
  | cons c cs ih =>
    have hc : ¬ (c = ',') := fun e => h (by simp [e])
    have hcs : ',' ∉ cs := fun m => h (List.mem_cons_of_mem _ m)
    simp [splitCommaCore, hc, ih _ hcs]

theorem splitComma_append_single (s o : String) (h : ',' ∉ o.data) :
    splitComma (s ++ "," ++ o) = splitComma s ++ [o] := by
  unfold splitComma
  have hdata : (s ++ "," ++ o).data = s.data ++ ',' :: o.data := by
    simp [String.data_append]
  rw [hdata, splitCommaCore_append, splitCommaCore_no_comma o.data [] h]
  rfl

theorem splitComma_append_commaConcat (s : String) (l : List String)
    (h : ∀ o ∈ l, ',' ∉ o.data) :
    splitComma (s ++ commaConcat l) = splitComma s ++ l := by
  induction l generalizing s with
  | nil => simp [commaConcat]
  | cons o rest ih =>
    have hassoc : s ++ commaConcat (o :: rest) = (s ++ "," ++ o) ++ commaConcat rest := by
      simp [commaConcat, String.append_assoc]
    rw [hassoc, ih _ (fun o2 m => h o2 (List.mem_cons_of_mem _ m)),
        splitComma_append_single s o (h o (List.mem_cons_self _ _))]
    simp

/-! ### Helper lemmas about partition-rule evaluation -/

theorem lookup_setMPOptions_same (storage : Storage) (mp v : String) :
    lookupMP (setMPOptions storage mp v) mp = some v := by
  simp [lookupMP, setMPOptions]

theorem setMPOptions_lookup_eq (storage : Storage) (mp options : String)
    (h : lookupMP storage mp = some options) :
    setMPOptions storage mp options = storage := by
  obtain ⟨f⟩ := storage
  unfold setMPOptions
  refine congrArg Storage.mk (funext fun mp2 => ?_)
  by_cases e : mp2 = mp
  · subst e
    rw [if_pos rfl]
    exact (show (Storage.mk f).mountpoints mp2 = some options from h).symm
  · simp [e]

theorem part_eval_none (r : PartRule) (st : SysState) (report_only : Bool)
    (h : lookupMP st.storage r.mount_point = none) :
    r.eval_rules st report_only =
      (st, [⟨MessageType.fatal,
             r.mount_point ++ " must be on a separate partition or logical volume"⟩]) := by
  simp [PartRule.eval_rules, h]

theorem part_eval_apply (r : PartRule) (st : SysState) (options : String)
    (h : lookupMP st.storage r.mount_point = some options) :
    r.eval_rules st false =
      ({ st with
         storage := setMPOptions st.storage r.mount_point
           (options ++ commaConcat (r.mount_options.filter (fun o => o ∉ splitComma options))) },
       (r.mount_options.filter (fun o => o ∉ splitComma options)).map (fun opt =>
         (⟨MessageType.info,
           "mount option '" ++ opt ++ "' added for the mount point " ++ r.mount_point⟩ :
           RuleMessage))) := by
  simp [PartRule.eval_rules, h, foldl_comma]

theorem part_eval_report_only_fst (r : PartRule) (st : SysState) :
    (r.eval_rules st true).1 = st := by
  rcases h : lookupMP st.storage r.mount_point with _ | options <;>
    simp [PartRule.eval_rules, h]

theorem part_eval_ksdata (r : PartRule) (st : SysState) (report_only : Bool) :
    (r.eval_rules st report_only).1.ksdata = st.ksdata := by
  rcases h : lookupMP st.storage r.mount_point with _ | options <;>
    simp [PartRule.eval_rules, h] <;> split <;> rfl

theorem optsGrow_refl (s : Storage) : optsGrow s s := by
  intro mp
  exact ⟨fun h => h, fun opts h => ⟨opts, h, fun _ m => m⟩⟩

theorem optsGrow_trans {s₁ s₂ s₃ : Storage} (h₁ : optsGrow s₁ s₂) (h₂ : optsGrow s₂ s₃) :
    optsGrow s₁ s₃ := by
  intro mp
  refine ⟨fun h => (h₂ mp).1 ((h₁ mp).1 h), fun opts h => ?_⟩
  obtain ⟨o2, ho2, hsub⟩ := (h₁ mp).2 opts h
  obtain ⟨o3, ho3, hsub2⟩ := (h₂ mp).2 o2 ho2
  exact ⟨o3, ho3, fun o m => hsub2 o (hsub o m)⟩

theorem covered_mono {r : PartRule} {s₁ s₂ : Storage} (hg : optsGrow s₁ s₂)
    (hc : covered r s₁) : covered r s₂ := by
  intro options2 hlook2 o ho
  rcases h1 : s₁.mountpoints r.mount_point with _ | opts
  · exact absurd ((hg r.mount_point).1 h1) (by rw [lookupMP] at hlook2; simp [hlook2])
  · obtain ⟨o2, ho2, hsub⟩ := (hg r.mount_point).2 opts h1
    rw [lookupMP] at hlook2
    rw [hlook2] at ho2
    cases ho2
    exact hsub o (hc opts h1 o ho)

theorem part_eval_grow_covered (r : PartRule) (st : SysState)
    (hc : ∀ o ∈ r.mount_options, ',' ∉ o.data) :
    optsGrow st.storage (r.eval_rules st false).1.storage ∧
    covered r (r.eval_rules st false).1.storage := by
  rcases h : lookupMP st.storage r.mount_point with _ | options
  · rw [part_eval_none r st false h]
    refine ⟨optsGrow_refl _, ?_⟩
    intro options hlook
    rw [h] at hlook
    cases hlook
  · rw [part_eval_apply r st options h]
    have hnoc : ∀ o ∈ r.mount_options.filter (fun o => o ∉ splitComma options), ',' ∉ o.data :=
      fun o m => hc o (List.mem_of_mem_filter m)
    have hsplit :
        splitComma (options ++ commaConcat (r.mount_options.filter (fun o => o ∉ splitComma options))) =
          splitComma options ++ r.mount_options.filter (fun o => o ∉ splitComma options) :=
      splitComma_append_commaConcat _ _ hnoc
    constructor
    · intro mp2
      constructor
      · intro hnone
        by_cases e : mp2 = r.mount_point
        · rw [e] at hnone
          rw [lookupMP] at h
          rw [hnone] at h
          cases h
        · simpa [setMPOptions, e] using hnone
      · intro opts hsome
        by_cases e : mp2 = r.mount_point
        · subst e
          rw [lookupMP] at h
          rw [h] at hsome
          cases hsome
          refine ⟨options ++
              commaConcat (r.mount_options.filter (fun o => o ∉ splitComma options)),
            by simp [setMPOptions], ?_⟩
          intro o m
          rw [hsplit]
          exact List.mem_append_left _ m
        · exact ⟨opts, by simpa [setMPOptions, e] using hsome, fun _ m => m⟩
    · intro options2 hlook2 o ho
      rw [lookup_setMPOptions_same] at hlook2
      cases hlook2
      rw [hsplit]
      by_cases hm : o ∈ splitComma options
      · exact List.mem_append_left _ hm
      · exact List.mem_append_right _ (List.mem_filter.mpr ⟨ho, by simpa using hm⟩)

theorem part_eval_covered_id (r : PartRule) (st : SysState) (h : covered r st.storage) :
    (r.eval_rules st false).1 = st ∧
    ∀ m ∈ (r.eval_rules st false).2, m.type = MessageType.fatal := by
  rcases hl : lookupMP st.storage r.mount_point with _ | options
  · rw [part_eval_none r st false hl]
    exact ⟨rfl, by simp⟩
  · have hall : ∀ o ∈ r.mount_options, o ∈ splitComma options := h options hl
    have hfil : r.mount_options.filter (fun o => o ∉ splitComma options) = [] := by
      rw [List.filter_eq_nil_iff]
      intro a ha
      simp [hall a ha]
    rw [part_eval_apply r st options hl, hfil]
    refine ⟨?_, by simp⟩
    have happ : options ++ commaConcat [] = options := by simp [commaConcat]
    simp only [happ, setMPOptions_lookup_eq st.storage r.mount_point options hl]

/-! ### Helper lemmas about the evaluation fold and the other collections -/

theorem partStates_cons (report_only : Bool) (st : SysState) (r : PartRule)
    (rest : List PartRule) :
    partStates report_only st (r :: rest) =
      partStates report_only (r.eval_rules st report_only).1 rest := rfl

theorem partMsgs_cons (report_only : Bool) (st : SysState) (r : PartRule)
    (rest : List PartRule) :
    partMsgs report_only st (r :: rest) =
      (r.eval_rules st report_only).2 ++
        partMsgs report_only (r.eval_rules st report_only).1 rest := rfl

theorem partRules_eval_eq (prs : PartRules) (st : SysState) (report_only : Bool) :
    prs.eval_rules st report_only =
      (partStates report_only st prs.rules, partMsgs report_only st prs.rules) := by
  suffices hgen : ∀ (rules : List PartRule) (s : SysState) (acc : List RuleMessage),
      rules.foldl
        (fun a r =>
          let p := r.eval_rules a.1 report_only
          (p.1, a.2 ++ p.2))
        (s, acc) =
      (partStates report_only s rules, acc ++ partMsgs report_only s rules) by
    have h := hgen prs.rules st []
    simpa [PartRules.eval_rules] using h
  intro rules
  induction rules with
  | nil => intro s acc; simp [partStates, partMsgs]
  | cons r rest ih =>
    intro s acc
    rw [List.foldl_cons]
    simp only []
    rw [ih, partStates_cons, partMsgs_cons, List.append_assoc]

theorem partStates_report_only (st : SysState) (rules : List PartRule) :
    partStates true st rules = st := by
  induction rules generalizing st with
  | nil => rfl
  | cons r rest ih =>
    rw [partStates_cons, part_eval_report_only_fst, ih]

theorem partStates_ksdata (report_only : Bool) (st : SysState) (rules : List PartRule) :
    (partStates report_only st rules).ksdata = st.ksdata := by
  induction rules generalizing st with
  | nil => rfl
  | cons r rest ih =>
    rw [partStates_cons, ih, part_eval_ksdata]

theorem partStates_grow_covered (rules : List PartRule) (st : SysState)
    (hc : ∀ r ∈ rules, ∀ o ∈ r.mount_options, ',' ∉ o.data) :
    optsGrow st.storage (partStates false st rules).storage ∧
    ∀ r ∈ rules, covered r (partStates false st rules).storage := by
  induction rules generalizing st with
  | nil => exact ⟨optsGrow_refl _, by simp⟩
  | cons r rest ih =>
    have h1 := part_eval_grow_covered r st (hc r (List.mem_cons_self _ _))
    obtain ⟨ihg, ihc⟩ :=
      ih ((r.eval_rules st false).1) (fun r2 m => hc r2 (List.mem_cons_of_mem _ m))
    rw [partStates_cons]
    refine ⟨optsGrow_trans h1.1 ihg, ?_⟩
    intro r2 hm
    rcases List.mem_cons.mp hm with e | hrest
    · subst e
      exact covered_mono ihg h1.2
    · exact ihc r2 hrest

theorem partStates_covered_id (rules : List PartRule) (st : SysState)
    (h : ∀ r ∈ rules, covered r st.storage) :
    partStates false st rules = st ∧
    ∀ m ∈ partMsgs false st rules, m.type = MessageType.fatal := by
  induction rules with
  | nil => exact ⟨rfl, by simp [partMsgs]⟩
  | cons r rest ih =>
    have h1 := part_eval_covered_id r st (h r (List.mem_cons_self _ _))
    obtain ⟨ihs, ihm⟩ := ih (fun r2 m => h r2 (List.mem_cons_of_mem _ m))
    rw [partStates_cons, partMsgs_cons, h1.1]
    refine ⟨ihs, ?_⟩
    intro m hm
    rcases List.mem_append.mp hm with hm1 | hm2
    · exact h1.2 m hm1
    · exact ihm m hm2

theorem passwd_eval_fst (p : PasswdRules) (st : SysState) (report_only : Bool) :
    (p.eval_rules st report_only).1 = st := by
  unfold PasswdRules.eval_rules
  split <;> rfl

theorem passwd_eval_snd (p : PasswdRules) (st : SysState) (report_only : Bool) :
    (p.eval_rules st report_only).2 =
      if 0 < p.minlen then
        [⟨MessageType.warning,
          "make sure to create password with minimal length of " ++
            toString p.minlen ++ " characters"⟩]
      else [] := by
  unfold PasswdRules.eval_rules
  split <;> simp_all

theorem pkgLoop_general (report_only : Bool) (mkText : String → String)
    (pkgs : List String) (lst : List String) (ms : List RuleMessage) :
    pkgs.foldl
      (fun acc pkg =>
        ((if !report_only && pkg ∉ acc.1 then acc.1 ++ [pkg] else acc.1),
         acc.2 ++ [⟨MessageType.info, mkText pkg⟩]))
      (lst, ms) =
    (pkgFold report_only pkgs lst,
     ms ++ pkgs.map (fun p => (⟨MessageType.info, mkText p⟩ : RuleMessage))) := by
  induction pkgs generalizing lst ms with
  | nil => simp [pkgFold]
  | cons p rest ih =>
    rw [List.foldl_cons, ih]
    simp [pkgFold]

theorem pkgLoop_eq (report_only : Bool) (mkText : String → String)
    (pkgs lst : List String) :
    pkgLoop report_only mkText pkgs lst =
      (pkgFold report_only pkgs lst,
       pkgs.map (fun p => (⟨MessageType.info, mkText p⟩ : RuleMessage))) := by
  unfold pkgLoop
  rw [pkgLoop_general]
  simp

theorem pkgFold_cons (report_only : Bool) (p : String) (rest lst : List String) :
    pkgFold report_only (p :: rest) lst =
      pkgFold report_only rest (if !report_only && p ∉ lst then lst ++ [p] else lst) := rfl

theorem pkgFold_report_only (pkgs lst : List String) :
    pkgFold true pkgs lst = lst := by
  induction pkgs generalizing lst with
  | nil => rfl
  | cons p rest ih =>
    rw [pkgFold_cons, if_neg (by simp)]
    exact ih lst

theorem pkgFold_mem_of_mem (report_only : Bool) (pkgs lst : List String) (x : String)
    (h : x ∈ lst) : x ∈ pkgFold report_only pkgs lst := by
  induction pkgs generalizing lst with
  | nil => exact h
  | cons p rest ih =>
    rw [pkgFold_cons]
    by_cases hc : (!report_only && decide (p ∉ lst)) = true
    · rw [if_pos hc]
      exact ih _ (List.mem_append_left _ h)
    · rw [if_neg hc]
      exact ih _ h

theorem pkgFold_mem_self (pkgs lst : List String) (p : String) (h : p ∈ pkgs) :
    p ∈ pkgFold false pkgs lst := by
  induction pkgs generalizing lst with
  | nil => cases h
  | cons q rest ih =>
    rw [pkgFold_cons]
    rcases List.mem_cons.mp h with e | hrest
    · subst e
      by_cases hm : p ∈ lst
      · rw [if_neg (by simp [hm])]
        exact pkgFold_mem_of_mem false rest lst p hm
      · rw [if_pos (by simp [hm])]
        exact pkgFold_mem_of_mem false rest _ p (List.mem_append_right _ (by simp))
    · by_cases hm : (!false && decide (q ∉ lst)) = true
      · rw [if_pos hm]
        exact ih _ hrest
      · rw [if_neg hm]
        exact ih _ hrest

theorem pkgFold_all_present (report_only : Bool) (pkgs lst : List String)
    (h : ∀ p ∈ pkgs, p ∈ lst) : pkgFold report_only pkgs lst = lst := by
  induction pkgs with
  | nil => rfl
  | cons p rest ih =>
    rw [pkgFold_cons, if_neg (by simp [h p (List.mem_cons_self _ _)])]
    exact ih (fun q m => h q (List.mem_cons_of_mem _ m))

theorem pkg_eval_eq (pr : PackageRules) (st : SysState) (report_only : Bool) :
    pr.eval_rules st report_only =
      ({ st with
         ksdata := ⟨⟨pkgFold report_only pr.add_pkgs st.ksdata.packages.packageList,
                     pkgFold report_only pr.remove_pkgs st.ksdata.packages.excludedList⟩⟩ },
       pr.add_pkgs.map (fun p =>
         (⟨MessageType.info,
           "package '" ++ p ++ "' has been added to the list of to be installed packages"⟩ :
           RuleMessage)) ++
       pr.remove_pkgs.map (fun p =>
         (⟨MessageType.info,
           "package '" ++ p ++ "' has been added to the list of excluded packages"⟩ :
           RuleMessage))) := by
  unfold PackageRules.eval_rules
  rw [pkgLoop_eq, pkgLoop_eq]

/-! ### Claim theorems -/

/-- **C4.** `new_rule` on a line that strips to the empty string is a no-op:
the rule set is returned unchanged with no error.  On any other line whose
first whitespace-delimited word is none of `part`, `passwd`, `package`,
`bootloader`, it fails with `UknownRuleError` naming that word. -/
theorem new_rule_blank_noop_unknown_raises (rd : RuleData) (s : String) :
    (pyStrip s = "" → rd.new_rule s = Except.ok rd) ∧
    (pyStrip s ≠ "" →
      firstWord (pyStrip s) ∉ (["part", "passwd", "package", "bootloader"] : List String) →
      rd.new_rule s =
        Except.error (PyErr.uknownRuleError ("Unknown rule: '" ++ firstWord (pyStrip s) ++ "'"))) := by
  constructor
  · intro h
    simp [RuleData.new_rule, h]
  · intro h hmem
    simp only [List.mem_cons, List.not_mem_nil, or_false] at hmem
    push_neg at hmem
    obtain ⟨h1, h2, h3, h4⟩ := hmem
    simp [RuleData.new_rule, h, h1, h2, h3, h4]

/-- Witness for C4: the unknown keyword `foo` raises, the blank line is a
no-op. -/
theorem new_rule_blank_noop_unknown_raises_witness :
    RuleData.new_rule RuleData.init "foo --bar" =
      Except.error (PyErr.uknownRuleError "Unknown rule: 'foo'") ∧
    RuleData.new_rule RuleData.init "   " = Except.ok RuleData.init :=
  ⟨(new_rule_blank_noop_unknown_raises RuleData.init "foo --bar").2 (by decide) (by decide),
   (new_rule_blank_noop_unknown_raises RuleData.init "   ").1 (by decide)⟩

/-- **C5.** Evaluating a partition rule whose mount point is not among the
planned mount points returns the state untouched together with exactly one
Fatal message `<mp> must be on a separate partition or logical volume`,
for either value of `report_only`. -/
theorem part_rule_missing_mount_point_fatal (r : PartRule) (st : SysState) (report_only : Bool)
    (h : lookupMP st.storage r.mount_point = none) :
    r.eval_rules st report_only =
      (st, [⟨MessageType.fatal,
             r.mount_point ++ " must be on a separate partition or logical volume"⟩]) := by
  simp [PartRule.eval_rules, h]

/-- Witness for C5: `part /opt --mountoptions=noexec` against a state where
`/opt` is not planned. -/
theorem part_rule_missing_mount_point_fatal_witness :
    PartRule.eval_rules ⟨"/opt", ["noexec"]⟩ exState true =
      (exState,
       [⟨MessageType.fatal, "/opt must be on a separate partition or logical volume"⟩]) :=
  part_rule_missing_mount_point_fatal ⟨"/opt", ["noexec"]⟩ exState true rfl

/-- **C6.** `update_minlen` stores the maximum of the stored and the given
value, hence the stored minimum length is monotonically non-decreasing
across every sequence of calls; in particular 5 then 2 leaves 5. -/
theorem update_minlen_monotone_max (p : PasswdRules) (v : Int) (calls : List Int) :
    (p.update_minlen v).minlen = max p.minlen v ∧
    p.minlen ≤ (calls.foldl PasswdRules.update_minlen p).minlen ∧
    ((PasswdRules.init.update_minlen 5).update_minlen 2).minlen = 5 := by
  refine ⟨?_, ?_, by decide⟩
  · unfold PasswdRules.update_minlen
    split <;> simp [max_def] <;> omega
  · induction calls generalizing p with
    | nil => simp [partStates]
    | cons c rest ih =>
      refine le_trans ?_ (ih (p.update_minlen c))
      unfold PasswdRules.update_minlen
      split <;> simp <;> omega

/-- **C7.** Password-policy evaluation returns the system state untouched in
every case; with a positive stored minimum length the message list is
exactly one Warning whose text names that length, and with zero it is
empty. -/
theorem passwd_eval_rules_warning (p : PasswdRules) (st : SysState) (report_only : Bool) :
    (p.eval_rules st report_only).1 = st ∧
    (0 < p.minlen →
      (p.eval_rules st report_only).2 =
        [⟨MessageType.warning,
          "make sure to create password with minimal length of " ++
            toString p.minlen ++ " characters"⟩]) ∧
    (p.minlen = 0 → (p.eval_rules st report_only).2 = []) := by
  unfold PasswdRules.eval_rules
  refine ⟨?_, ?_, ?_⟩
  · split <;> rfl
  · intro h
    simp [h]
  · intro h
    simp [h]

/-- Witness for C7: `passwd --minlen=8` gives one Warning mentioning 8 and
leaves the state alone. -/
theorem passwd_eval_rules_warning_witness :
    (PasswdRules.eval_rules ⟨8⟩ exState true).1 = exState ∧
    (PasswdRules.eval_rules ⟨8⟩ exState true).2 =
      [⟨MessageType.warning,
        "make sure to create password with minimal length of 8 characters"⟩] :=
  ⟨(passwd_eval_rules_warning ⟨8⟩ exState true).1,
   (passwd_eval_rules_warning ⟨8⟩ exState true).2.1 (by decide)⟩

/-- **C3** (code bug evidence).  The grammar failure modes the code actually
has: a `part` line without its positional mount point hits `args[1]` and
raises `IndexError`; an unknown flag or a missing/ill-typed option value
makes `optparse` print usage and `sys.exit(2)` (`SystemExit`).  No
`MalformedDirectiveError` exists anywhere in the module. -/
theorem malformed_directive_failure_modes :
    RuleData.new_rule RuleData.init "part" = Except.error PyErr.indexError ∧
    RuleData.new_rule RuleData.init "part /tmp --badflag" =
      Except.error (PyErr.systemExit "no such option: --badflag") ∧
    RuleData.new_rule RuleData.init "passwd --minlen=abc" =
      Except.error (PyErr.systemExit "option --minlen: invalid integer value: abc") ∧
    RuleData.new_rule RuleData.init "part --mountoptions" =
      Except.error (PyErr.systemExit "--mountoptions option requires an argument") :=
  ⟨rfl, rfl, rfl, rfl⟩

/-- **C2** (code bug evidence).  `RuleData.__str__` renders the package
rules with the keyword `packages`, which `new_rule`'s dispatch table does
not contain (it only knows `package`): the rendered line fed back into the
parser raises `UknownRuleError`, so the re-serialization does not
round-trip. -/
theorem package_serialization_breaks_round_trip :
    (RuleData.new_rule RuleData.init "package --add=vim").map RuleData.str =
      Except.ok "\npackages --add=vim" ∧
    RuleData.new_rule RuleData.init "packages --add=vim" =
      Except.error (PyErr.uknownRuleError "Unknown rule: 'packages'") :=
  ⟨rfl, rfl⟩

theorem add_mount_options_foldl (calls : List (List String)) (r : PartRule) :
    (calls.foldl PartRule.add_mount_options r).mount_options =
      calls.flatten.foldl (fun acc o => if o ∈ acc then acc else acc ++ [o])
        r.mount_options := by
  induction calls generalizing r with
  | nil => rfl
  | cons c rest ih =>
    rw [List.foldl_cons, ih, List.flatten_cons, List.foldl_append]
    rfl

theorem dedup_foldl_nodup (l : List String) (acc : List String) (h : acc.Nodup) :
    (l.foldl (fun acc o => if o ∈ acc then acc else acc ++ [o]) acc).Nodup := by
  induction l generalizing acc with
  | nil => exact h
  | cons o rest ih =>
    rw [List.foldl_cons]
    by_cases hm : o ∈ acc
    · rw [if_pos hm]
      exact ih _ h
    · rw [if_neg hm]
      exact ih _ (by simp [List.nodup_append, h, hm])

theorem dedup_foldl_noop (l : List String) (acc : List String)
    (h : ∀ o ∈ l, o ∈ acc) :
    l.foldl (fun acc o => if o ∈ acc then acc else acc ++ [o]) acc = acc := by
  induction l with
  | nil => rfl
  | cons o rest ih =>
    rw [List.foldl_cons, if_pos (h o (List.mem_cons_self _ _))]
    exact ih (fun o2 m => h o2 (List.mem_cons_of_mem _ m))

/-- **C8.** Starting from a freshly created `PartRule`, any sequence of
`add_mount_options` calls leaves exactly the first occurrence of each option
of the concatenated inputs, in first-seen order; the stored sequence is
duplicate-free; and a call whose options are all already present returns the
rule unchanged. -/
theorem add_mount_options_first_seen (mp : String) (calls : List (List String))
    (r : PartRule) (opts : List String) (h : ∀ o ∈ opts, o ∈ r.mount_options) :
    (calls.foldl PartRule.add_mount_options (PartRule.init mp)).mount_options =
      firstSeen calls.flatten ∧
    (calls.foldl PartRule.add_mount_options (PartRule.init mp)).mount_options.Nodup ∧
    r.add_mount_options opts = r := by
  have h1 := add_mount_options_foldl calls (PartRule.init mp)
  refine ⟨h1, ?_, ?_⟩
  · rw [h1]
    exact dedup_foldl_nodup _ _ List.nodup_nil
  · show { r with mount_options := _ } = r
    rw [dedup_foldl_noop opts r.mount_options h]

/-- Witness for C8: duplicated inputs collapse to first-seen order, and
re-adding a present option is a no-op. -/
theorem add_mount_options_first_seen_witness :
    (([["nodev", "nodev", "nosuid"], ["nodev"]] : List (List String)).foldl
        PartRule.add_mount_options (PartRule.init "/tmp")).mount_options =
      firstSeen [["nodev", "nodev", "nosuid"], ["nodev"]].flatten ∧
    firstSeen [["nodev", "nodev", "nosuid"], ["nodev"]].flatten = ["nodev", "nosuid"] ∧
    PartRule.add_mount_options ⟨"/x", ["a", "b"]⟩ ["a"] = ⟨"/x", ["a", "b"]⟩ :=
  ⟨(add_mount_options_first_seen "/tmp" [["nodev", "nodev", "nosuid"], ["nodev"]]
      ⟨"/x", ["a", "b"]⟩ ["a"] (by decide)).1,
   by decide,
   (add_mount_options_first_seen "/tmp" [["nodev", "nodev", "nosuid"], ["nodev"]]
      ⟨"/x", ["a", "b"]⟩ ["a"] (by decide)).2.2⟩

/-- **C9.** Evaluating a whole rule set in report-only mode returns the
system state untouched: no mount-option string, install list or exclude
list changes (and, the rule data being an input only, the accumulated rules
cannot change either); the call only computes messages. -/
theorem eval_rules_report_only_no_mutation (rd : RuleData) (st : SysState) :
    (rd.eval_rules st true).1 = st := by
  simp only [RuleData.eval_rules, BootloaderRules.eval_rules]
  rw [partRules_eval_eq]
  simp only [passwd_eval_fst, pkg_eval_eq, partStates_report_only]
  rw [pkgFold_report_only, pkgFold_report_only]

/-- **C10.** In apply mode, a planned mount point with at least one missing
option gets the missing options appended to its option string, each
prefixed by a comma; the appended text therefore begins with a comma, and
when the existing option string was empty, splitting the result on commas
yields an empty leading element. -/
theorem part_apply_appends_with_leading_comma (r : PartRule) (st : SysState)
    (options : String)
    (h : lookupMP st.storage r.mount_point = some options)
    (hmiss : r.mount_options.filter (fun o => o ∉ splitComma options) ≠ []) :
    lookupMP (r.eval_rules st false).1.storage r.mount_point =
      some (options ++ commaConcat (r.mount_options.filter (fun o => o ∉ splitComma options))) ∧
    (commaConcat (r.mount_options.filter (fun o => o ∉ splitComma options))).data.head? =
      some ',' ∧
    (options = "" →
      (splitComma (options ++
          commaConcat (r.mount_options.filter (fun o => o ∉ splitComma options)))).head? =
        some "") := by
  refine ⟨?_, ?_, ?_⟩
  · rw [part_eval_apply r st options h]
    exact lookup_setMPOptions_same _ _ _
  · rcases hl : r.mount_options.filter (fun o => o ∉ splitComma options) with _ | ⟨o, rest⟩
    · exact absurd hl hmiss
    · simp [commaConcat, String.data_append]
  · intro h0
    subst h0
    rcases hl : r.mount_options.filter (fun o => o ∉ splitComma "") with _ | ⟨o, rest⟩
    · exact absurd hl hmiss
    · have hdata : ("" ++ commaConcat (o :: rest)).data =
          ',' :: (o.data ++ (commaConcat rest).data) := by
        simp [commaConcat, String.data_append]
      rw [splitComma, hdata]
      simp [splitCommaCore]

/-- Witness for C10: `part /tmp --mountoptions=nodev,nosuid` applied to a
state where `/tmp` has an empty option string yields `",nodev,nosuid"`,
whose comma-split starts with an empty element. -/
theorem part_apply_appends_with_leading_comma_witness :
    lookupMP (PartRule.eval_rules ⟨"/tmp", ["nodev", "nosuid"]⟩ exStateEmptyOpts false).1.storage
        "/tmp" = some ",nodev,nosuid" ∧
    splitComma ",nodev,nosuid" = ["", "nodev", "nosuid"] := by
  have h := part_apply_appends_with_leading_comma ⟨"/tmp", ["nodev", "nosuid"]⟩
    exStateEmptyOpts "" rfl (by decide)
  refine ⟨?_, by decide⟩
  rw [h.1]
  decide

theorem ruleData_eval_fst (rd : RuleData) (st : SysState) (report_only : Bool) :
    (rd.eval_rules st report_only).1 =
      { partStates report_only st rd.part_rules.rules with
        ksdata := ⟨⟨pkgFold report_only rd.package_rules.add_pkgs
                      st.ksdata.packages.packageList,
                    pkgFold report_only rd.package_rules.remove_pkgs
                      st.ksdata.packages.excludedList⟩⟩ } := by
  simp only [RuleData.eval_rules, BootloaderRules.eval_rules]
  rw [partRules_eval_eq]
  simp only [passwd_eval_fst, pkg_eval_eq]
  rw [partStates_ksdata]

theorem ruleData_eval_snd (rd : RuleData) (st : SysState) (report_only : Bool) :
    (rd.eval_rules st report_only).2 =
      partMsgs report_only st rd.part_rules.rules ++
      (rd.passwd_rules.eval_rules st report_only).2 ++
      (rd.package_rules.eval_rules st report_only).2 := by
  simp only [RuleData.eval_rules, BootloaderRules.eval_rules]
  rw [partRules_eval_eq]
  simp only [passwd_eval_snd, pkg_eval_eq]
  simp

/-- **C1** (amended).  Evaluating the same rule set twice in apply mode
(`report_only = false`, mount options comma-free as the parser produces
them) leaves the system state exactly as after the first call, and the
second call emits no Info message about mount options: every Info message
of the second call is one of the package messages — which the code re-emits
identically on every call, so the original claim's "no Info messages for
already-applied packages" part fails (see the counterexample). -/
theorem eval_rules_twice_apply_mode (rd : RuleData) (st : SysState)
    (hc : ∀ r ∈ rd.part_rules.rules, ∀ o ∈ r.mount_options, ',' ∉ o.data) :
    (rd.eval_rules (rd.eval_rules st false).1 false).1 = (rd.eval_rules st false).1 ∧
    (∀ m ∈ (rd.eval_rules (rd.eval_rules st false).1 false).2,
        m.type = MessageType.info →
        m ∈ (rd.package_rules.eval_rules (rd.eval_rules st false).1 false).2) ∧
    (rd.package_rules.eval_rules (rd.eval_rules st false).1 false).2 =
      (rd.package_rules.eval_rules st false).2 := by
  have hst1 := ruleData_eval_fst rd st false
  have hstor : (rd.eval_rules st false).1.storage =
      (partStates false st rd.part_rules.rules).storage := by rw [hst1]
  have hcov : ∀ r ∈ rd.part_rules.rules, covered r (rd.eval_rules st false).1.storage := by
    rw [hstor]
    exact (partStates_grow_covered rd.part_rules.rules st hc).2
  have hparts := partStates_covered_id rd.part_rules.rules ((rd.eval_rules st false).1) hcov
  have hadd : ∀ p ∈ rd.package_rules.add_pkgs,
      p ∈ (rd.eval_rules st false).1.ksdata.packages.packageList := by
    intro p hp
    rw [hst1]
    exact pkgFold_mem_self _ _ p hp
  have hrem : ∀ p ∈ rd.package_rules.remove_pkgs,
      p ∈ (rd.eval_rules st false).1.ksdata.packages.excludedList := by
    intro p hp
    rw [hst1]
    exact pkgFold_mem_self _ _ p hp
  refine ⟨?_, ?_, ?_⟩
  · rw [ruleData_eval_fst rd ((rd.eval_rules st false).1) false, hparts.1,
        pkgFold_all_present false _ _ hadd, pkgFold_all_present false _ _ hrem]
  · intro m hm hinfo
    rw [ruleData_eval_snd rd ((rd.eval_rules st false).1) false] at hm
    rcases List.mem_append.mp hm with hm12 | hm3
    · rcases List.mem_append.mp hm12 with hm1 | hm2
      · have hfatal := hparts.2 m hm1
        rw [hinfo] at hfatal
        cases hfatal
      · rw [passwd_eval_snd] at hm2
        by_cases hlen : 0 < rd.passwd_rules.minlen
        · rw [if_pos hlen] at hm2
          have he := List.mem_singleton.mp hm2
          rw [he] at hinfo
          cases hinfo
        · rw [if_neg hlen] at hm2
          cases hm2
    · exact hm3
  · rw [pkg_eval_eq, pkg_eval_eq]

/-- **C1** (counterexample to the claim as stated).  With the rule set
`part /tmp --mountoptions=nodev` plus `package --add=vim`, against a state
where `/tmp` is planned with options `defaults`: the first apply-mode call
installs `vim`, yet the second call still contains the Info message for
`vim` — so the second call's message list is not free of Info messages for
packages already applied by the first call. -/
theorem eval_rules_twice_reemits_package_info :
    "vim" ∈ (rdEx.eval_rules exState false).1.ksdata.packages.packageList ∧
    (⟨MessageType.info,
      "package 'vim' has been added to the list of to be installed packages"⟩ :
      RuleMessage) ∈
      (rdEx.eval_rules (rdEx.eval_rules exState false).1 false).2 :=
  ⟨by decide, by decide⟩

/-- Witness for C1: the amended theorem instantiated at a concrete rule set
and state. -/
theorem eval_rules_twice_apply_mode_witness :
    (rdEx.eval_rules (rdEx.eval_rules exState false).1 false).1 =
      (rdEx.eval_rules exState false).1 :=
  (eval_rules_twice_apply_mode rdEx exState (by decide)).1

end OscapAddon
